import Mathlib

/-!
Verification of the QuantDinger Data Source Resilience Layer
(`backend_api_python/app/data_sources/`): circuit breaker, TTL/LRU cache,
retry-with-backoff and the priority-ordered failover orchestrator.

Each Python component is shallowly embedded as executable Lean definitions:
wall-clock time and float-valued durations become explicit `ℚ` parameters,
the per-source state dictionary becomes a total function `String → SourceState`,
`OrderedDict` becomes an association list whose front is the oldest entry, and
fallible operations return `Option`/`Except`.
-/

/-! ## Circuit breaker (`circuit_breaker.py`) -/

/-- The three circuit states of `CircuitState` (`closed` / `open` / `half_open`). -/
inductive CircuitState where
  | closed
  | opened
  | halfOpen
deriving DecidableEq

/-- Constructor parameters of `CircuitBreaker.__init__` with their defaults. -/
structure CBConfig where
  failure_threshold : Nat := 3
  cooldown_seconds : ℚ := 300
  half_open_max_calls : Nat := 1

/-- The per-source record created by `CircuitBreaker._get_state`. -/
structure SourceState where
  state : CircuitState := CircuitState.closed
  failures : Nat := 0
  last_failure_time : ℚ := 0
  half_open_calls : Nat := 0
  last_error : Option String := none
deriving DecidableEq

/-- The fresh per-source record installed by `_get_state` on first access. -/
def initSourceState : SourceState := {}

/-- `CircuitBreaker.is_available` acting on a single source's record at wall-clock
time `now`; returns the boolean result together with the (possibly mutated)
record, since the `OPEN` branch transitions to `HALF_OPEN` in place. -/
def is_available (cfg : CBConfig) (s : SourceState) (now : ℚ) : Bool × SourceState :=
  match s.state with
  | CircuitState.closed => (true, s)
  | CircuitState.opened =>
      if now - s.last_failure_time ≥ cfg.cooldown_seconds then
        (true, { s with state := CircuitState.halfOpen, half_open_calls := 0 })
      else
        (false, s)
  | CircuitState.halfOpen =>
      if s.half_open_calls < cfg.half_open_max_calls then (true, s) else (false, s)

/-- `CircuitBreaker.record_success` on a single source's record. -/
def record_success (s : SourceState) : SourceState :=
  { s with state := CircuitState.closed, failures := 0,
           half_open_calls := 0, last_error := none }

/-- `CircuitBreaker.record_failure` on a single source's record at time `now`. -/
def record_failure (cfg : CBConfig) (s : SourceState) (now : ℚ)
    (error : Option String) : SourceState :=
  let s1 : SourceState :=
    { s with failures := s.failures + 1, last_failure_time := now, last_error := error }
  if s1.state = CircuitState.halfOpen then
    { s1 with state := CircuitState.opened, half_open_calls := 0 }
  else if cfg.failure_threshold ≤ s1.failures then
    { s1 with state := CircuitState.opened }
  else
    s1

/-- The `_states` dictionary of a `CircuitBreaker`, as a total map: absent keys
behave exactly like the fresh record `_get_state` would install. -/
def CB : Type := String → SourceState

/-- The empty `_states` dictionary. -/
def initCB : CB := fun _ => initSourceState

/-- Pointwise update of the `_states` dictionary. -/
def cbUpdate (cb : CB) (src : String) (st : SourceState) : CB :=
  fun k => if k = src then st else cb k

/-- `CircuitBreaker.is_available(source)` on the whole dictionary. -/
def cb_is_available (cfg : CBConfig) (cb : CB) (src : String) (now : ℚ) : Bool × CB :=
  let r := is_available cfg (cb src) now
  (r.1, cbUpdate cb src r.2)

/-- `CircuitBreaker.record_success(source)` on the whole dictionary. -/
def cb_record_success (cb : CB) (src : String) : CB :=
  cbUpdate cb src (record_success (cb src))

/-- `CircuitBreaker.record_failure(source, error)` on the whole dictionary. -/
def cb_record_failure (cfg : CBConfig) (cb : CB) (src : String) (now : ℚ)
    (error : Option String) : CB :=
  cbUpdate cb src (record_failure cfg (cb src) now error)

/-- A sequence of consecutive `record_failure` calls at the given times. -/
def recordFailures (cfg : CBConfig) (s : SourceState) (ts : List ℚ) : SourceState :=
  ts.foldl (fun s t => record_failure cfg s t none) s

/-! ## Circuit breaker lemmas -/

lemma recordFailures_closed (cfg : CBConfig) :
    ∀ (ts : List ℚ) (s : SourceState), s.state = CircuitState.closed →
      s.failures + ts.length < cfg.failure_threshold →
      (recordFailures cfg s ts).state = CircuitState.closed ∧
        (recordFailures cfg s ts).failures = s.failures + ts.length := by
  intro ts
  induction ts with
  | nil => intro s hs _; simpa [recordFailures] using hs
  | cons t ts ih =>
      intro s hs hlt
      have hstep : record_failure cfg s t none =
          { s with failures := s.failures + 1, last_failure_time := t,
                   last_error := none } := by
        simp only [record_failure, hs]
        have h1 : ¬ (s.state = CircuitState.halfOpen) := by
          rw [hs]; intro h; cases h
        have h2 : ¬ (cfg.failure_threshold ≤ s.failures + 1) := by
          simp at hlt; omega
        simp [hs, h2]
      have hrec : recordFailures cfg s (t :: ts) =
          recordFailures cfg (record_failure cfg s t none) ts := rfl
      rw [hrec, hstep]
      have := ih { s with failures := s.failures + 1, last_failure_time := t,
                          last_error := none }
      simp only at this
      constructor
      · exact (this hs (by simp at hlt ⊢; omega)).1
      · have h := (this hs (by simp at hlt ⊢; omega)).2
        simp only [h]
        simp at hlt ⊢
        omega

lemma record_failure_opens (cfg : CBConfig) (s : SourceState) (t : ℚ)
    (hs : s.state = CircuitState.closed)
    (hth : cfg.failure_threshold ≤ s.failures + 1) :
    (record_failure cfg s t none).state = CircuitState.opened ∧
      (record_failure cfg s t none).last_failure_time = t := by
  simp only [record_failure]
  have h1 : ¬ (s.state = CircuitState.halfOpen) := by
    rw [hs]; intro h; cases h
  simp [h1, hth]

/-! ## Claim theorems about the circuit breaker -/

/-- C5: starting from the fresh `Closed` record with zero failures,
`failure_threshold` consecutive `record_failure` calls flip `is_available`
from true to false (queried before the cooldown elapses), while
`failure_threshold - 1` such calls leave it true. -/
theorem circuit_threshold_flips_availability (cfg : CBConfig) (ts : List ℚ)
    (t now : ℚ) (hth : 1 ≤ cfg.failure_threshold)
    (hlen : ts.length = cfg.failure_threshold - 1)
    (hnow : now - t < cfg.cooldown_seconds) :
    (is_available cfg initSourceState now).1 = true ∧
    (is_available cfg (recordFailures cfg initSourceState ts) now).1 = true ∧
    (is_available cfg (recordFailures cfg initSourceState (ts ++ [t])) now).1 = false := by
  have hinit : initSourceState.state = CircuitState.closed := rfl
  have hfail : initSourceState.failures = 0 := rfl
  have hc := recordFailures_closed cfg ts initSourceState hinit (by omega)
  refine ⟨rfl, ?_, ?_⟩
  · simp [is_available, hc.1]
  · have happ : recordFailures cfg initSourceState (ts ++ [t]) =
        record_failure cfg (recordFailures cfg initSourceState ts) t none := by
      simp [recordFailures, List.foldl_append]
    rw [happ]
    have hopen := record_failure_opens cfg (recordFailures cfg initSourceState ts) t
      hc.1 (by omega)
    simp only [is_available, hopen.1, hopen.2]
    have : ¬ (cfg.cooldown_seconds ≤ now - t) := not_le.mpr hnow
    simp [this]

/-- Witness for C5 at `failure_threshold = 3`, failures recorded at times
0, 1, 2 and 3, queried at time 3 (cooldown 300 not yet elapsed). -/
theorem circuit_threshold_flips_availability_witness :
    (is_available {} initSourceState 3).1 = true ∧
    (is_available {} (recordFailures {} initSourceState [0, 1]) 3).1 = true ∧
    (is_available {} (recordFailures {} initSourceState ([0, 1] ++ [2])) 3).1 = false :=
  circuit_threshold_flips_availability {} [0, 1] 2 3 (by norm_num) (by norm_num)
    (by norm_num)

/-- C6: for every source and every prior per-source record, `record_success`
sets that source's state to `Closed`, failures to 0, `half_open_calls` to 0 and
`last_error` to `None` (only `last_failure_time` survives). -/
theorem record_success_resets (cb : CB) (src : String) :
    (cb_record_success cb src) src =
      { state := CircuitState.closed, failures := 0,
        last_failure_time := (cb src).last_failure_time,
        half_open_calls := 0, last_error := none } := by
  simp [cb_record_success, cbUpdate, record_success]

/-- A source that tripped the default breaker: `Open` with its last failure at
time 0. -/
def openTrippedState : SourceState :=
  { state := CircuitState.opened, failures := 3, last_failure_time := 0,
    half_open_calls := 0, last_error := some "timeout" }

/-- C1 (code bug evidence): with `half_open_max_calls = 1` and the cooldown
elapsed, the first `is_available` call transitions to `HalfOpen` and returns
true, but the second call — with no outcome recorded in between — returns true
again, and leaves the record unchanged, so every further call also returns
true: `half_open_calls` is never incremented anywhere in the code, so
availability is never exhausted after `half_open_max_calls` probes. -/
theorem half_open_probe_never_exhausts :
    (is_available {} openTrippedState 300).1 = true ∧
    (is_available {} ((is_available {} openTrippedState 300).2) 300).1 = true ∧
    (is_available {} ((is_available {} openTrippedState 300).2) 300).2 =
      (is_available {} openTrippedState 300).2 := by
  norm_num [is_available, openTrippedState]

/-! ## Data cache (`cache_manager.py`) -/

/-- `CacheEntry`: the dataclass stored per key. -/
structure CacheEntry (α : Type) where
  data : α
  timestamp : ℚ
  ttl : ℚ
  hit_count : Nat := 0
deriving DecidableEq

/-- `CacheEntry.is_expired` evaluated at wall-clock time `now`:
`time.time() - self.timestamp > self.ttl`. -/
def CacheEntry.is_expired (e : CacheEntry α) (now : ℚ) : Bool :=
  now - e.timestamp > e.ttl

/-- `DataCache`: the `OrderedDict` is an association list whose FRONT is the
oldest-by-access entry, i.e. the one `popitem(last=False)` removes. -/
structure DataCache (α : Type) where
  name : String := "default"
  default_ttl : ℚ := 600
  max_size : Nat := 1000
  entries : List (String × CacheEntry α) := []
  hits : Nat := 0
  misses : Nat := 0
deriving DecidableEq

/-- Removal of a key from the `OrderedDict` (`del self._cache[key]`). -/
def odErase (l : List (String × CacheEntry α)) (key : String) :
    List (String × CacheEntry α) :=
  l.filter (fun p => !(p.1 == key))

/-- The `OrderedDict` assignment `self._cache[key] = entry`: an existing key
keeps its position, a new key is appended at the most-recently-used end. -/
def odInsert (l : List (String × CacheEntry α)) (key : String)
    (e : CacheEntry α) : List (String × CacheEntry α) :=
  if l.any (fun p => p.1 == key) then
    l.map (fun p => if p.1 == key then (key, e) else p)
  else
    l ++ [(key, e)]

/-- The eviction loop of `DataCache.set`:
`while len(self._cache) >= self.max_size: self._cache.popitem(last=False)`.
Returns `none` when `popitem` is reached on an empty map (Python `KeyError`). -/
def odEvict (l : List (String × CacheEntry α)) (max_size : Nat) :
    Option (List (String × CacheEntry α)) :=
  if l.length < max_size then some l
  else
    match l with
    | [] => none
    | _ :: rest => odEvict rest max_size

/-- `DataCache.get` at wall-clock time `now`. -/
def dcGet (c : DataCache α) (key : String) (now : ℚ) : Option α × DataCache α :=
  match c.entries.lookup key with
  | none => (none, { c with misses := c.misses + 1 })
  | some e =>
      if e.is_expired now then
        (none, { c with entries := odErase c.entries key, misses := c.misses + 1 })
      else
        (some e.data,
         { c with
             entries := odErase c.entries key ++
               [(key, { e with hit_count := e.hit_count + 1 })],
             hits := c.hits + 1 })

/-- `DataCache.set` at wall-clock time `now`; `none` models the `KeyError`
raised by the eviction loop when `max_size = 0`. -/
def dcSet (c : DataCache α) (key : String) (data : α) (ttl : Option ℚ)
    (now : ℚ) : Option (DataCache α) :=
  match odEvict c.entries c.max_size with
  | none => none
  | some l =>
      let actual_ttl := ttl.getD c.default_ttl
      some { c with
               entries := odInsert l key
                 { data := data, timestamp := now, ttl := actual_ttl, hit_count := 0 } }

/-- `DataCache.delete`. -/
def dcDelete (c : DataCache α) (key : String) : Bool × DataCache α :=
  if c.entries.any (fun p => p.1 == key) then
    (true, { c with entries := odErase c.entries key })
  else
    (false, c)

/-- One public mutating operation on a `DataCache`. -/
inductive CacheOp (α : Type) where
  | get (key : String) (now : ℚ)
  | set (key : String) (data : α) (ttl : Option ℚ) (now : ℚ)
  | del (key : String)

/-- Run one operation; a `set` whose eviction loop raises leaves the abstract
cache unchanged (the exception propagates to the caller either way). -/
def applyOp (c : DataCache α) : CacheOp α → DataCache α
  | CacheOp.get k now => (dcGet c k now).2
  | CacheOp.set k d t now => (dcSet c k d t now).getD c
  | CacheOp.del k => (dcDelete c k).2

/-- Run a sequence of operations. -/
def applyOps (c : DataCache α) (ops : List (CacheOp α)) : DataCache α :=
  ops.foldl applyOp c

/-! ## Data cache lemmas -/

lemma odEvict_isSome (max_size : Nat) :
    ∀ l : List (String × CacheEntry α), (odEvict l max_size).isSome ↔ 1 ≤ max_size := by
  intro l
  induction l with
  | nil =>
      unfold odEvict
      by_cases h0 : List.length ([] : List (String × CacheEntry α)) < max_size
      · rw [if_pos h0]; simp at h0 ⊢; omega
      · rw [if_neg h0]; simp at h0 ⊢; omega
  | cons p rest ih =>
      unfold odEvict
      by_cases h0 : (p :: rest).length < max_size
      · rw [if_pos h0]; simp at h0 ⊢; omega
      · rw [if_neg h0]; exact ih

lemma odEvict_some_length (max_size : Nat) :
    ∀ l l' : List (String × CacheEntry α),
      odEvict l max_size = some l' → l'.length < max_size := by
  intro l
  induction l with
  | nil =>
      intro l' h
      unfold odEvict at h
      by_cases h0 : List.length ([] : List (String × CacheEntry α)) < max_size
      · rw [if_pos h0] at h
        cases h
        simpa using h0
      · rw [if_neg h0] at h
        cases h
  | cons p rest ih =>
      intro l' h
      unfold odEvict at h
      by_cases h0 : (p :: rest).length < max_size
      · rw [if_pos h0] at h
        cases h
        exact h0
      · rw [if_neg h0] at h
        exact ih l' h

lemma odInsert_length (l : List (String × CacheEntry α)) (key : String)
    (e : CacheEntry α) : (odInsert l key e).length ≤ l.length + 1 := by
  unfold odInsert
  by_cases h : l.any (fun p => p.1 == key)
  · simp [h]
  · simp [h]

lemma odErase_length_lt (key : String) (e : CacheEntry α) :
    ∀ l : List (String × CacheEntry α), l.lookup key = some e →
      (odErase l key).length < l.length := by
  intro l
  induction l with
  | nil => intro h; simp [List.lookup] at h
  | cons p rest ih =>
      intro h
      rcases p with ⟨a, b⟩
      by_cases hab : key = a
      · have hba : (a == key) = true := by simp [hab]
        have hle : (odErase ((a, b) :: rest) key).length ≤ rest.length := by
          simp only [odErase, List.filter, hba, Bool.not_true]
          simpa [odErase] using List.length_filter_le (fun p => !(p.1 == key)) rest
        simp only [List.length_cons]
        omega
      · have hba : (a == key) = false := by
          simp only [beq_eq_false_iff_ne, ne_eq]
          intro hc; exact hab hc.symm
        have hk : (key == a) = false := by
          simp only [beq_eq_false_iff_ne, ne_eq]
          exact hab
        rw [List.lookup] at h
        simp only [hk] at h
        have hr := ih h
        simp only [odErase, List.filter, hba, Bool.not_false, List.length_cons]
        simp only [odErase] at hr
        omega

lemma odErase_lookup_none (key : String) :
    ∀ l : List (String × CacheEntry α), (odErase l key).lookup key = none := by
  intro l
  induction l with
  | nil => rfl
  | cons p rest ih =>
      rcases p with ⟨a, b⟩
      by_cases hab : a = key
      · have hba : (a == key) = true := by simp [hab]
        simp only [odErase, List.filter, hba, Bool.not_true]
        simpa [odErase] using ih
      · have hba : (a == key) = false := by
          simp only [beq_eq_false_iff_ne, ne_eq]
          exact hab
        have hk : (key == a) = false := by
          simp only [beq_eq_false_iff_ne, ne_eq]
          intro hc; exact hab hc.symm
        simp only [odErase, List.filter, hba, Bool.not_false]
        rw [List.lookup]
        simp only [hk]
        simpa [odErase] using ih

lemma dcGet_length (c : DataCache α) (key : String) (now : ℚ) :
    (dcGet c key now).2.entries.length ≤ c.entries.length ∧
      (dcGet c key now).2.max_size = c.max_size := by
  unfold dcGet
  cases hl : c.entries.lookup key with
  | none => exact ⟨le_refl _, rfl⟩
  | some e =>
      cases hexp : e.is_expired now
      · simp only [hexp, Bool.false_eq_true, if_false]
        refine ⟨?_, by trivial⟩
        simp only [List.length_append, List.length_singleton]
        have := odErase_length_lt key e c.entries hl
        omega
      · simp only [hexp, if_true]
        exact ⟨le_of_lt (odErase_length_lt key e c.entries hl), by trivial⟩

lemma dcSet_some_bound (c : DataCache α) (key : String) (data : α)
    (ttl : Option ℚ) (now : ℚ) (c' : DataCache α)
    (h : dcSet c key data ttl now = some c') :
    c'.entries.length ≤ c.max_size ∧ c'.max_size = c.max_size := by
  unfold dcSet at h
  cases he : odEvict c.entries c.max_size with
  | none => rw [he] at h; cases h
  | some l =>
      rw [he] at h
      simp only [Option.some.injEq] at h
      have hlen := odEvict_some_length c.max_size c.entries l he
      have hins := odInsert_length l key
        { data := data, timestamp := now, ttl := ttl.getD c.default_ttl, hit_count := 0 }
      constructor
      · rw [← h]
        simp only
        omega
      · rw [← h]

lemma applyOp_bound (c : DataCache α) (op : CacheOp α)
    (h : c.entries.length ≤ c.max_size) :
    (applyOp c op).entries.length ≤ (applyOp c op).max_size ∧
      (applyOp c op).max_size = c.max_size := by
  cases op with
  | get k now =>
      have hg := dcGet_length c k now
      simp only [applyOp]
      exact ⟨by omega, hg.2⟩
  | set k d t now =>
      simp only [applyOp]
      cases hs : dcSet c k d t now with
      | none => exact ⟨h, by trivial⟩
      | some c' =>
          have hb := dcSet_some_bound c k d t now c' hs
          simp only [Option.getD_some]
          exact ⟨by omega, hb.2⟩
  | del k =>
      simp only [applyOp, dcDelete]
      by_cases hk : c.entries.any (fun p => p.1 == k)
      · simp only [hk, if_true]
        have hf := List.length_filter_le (fun p => !(p.1 == k)) c.entries
        refine ⟨?_, by trivial⟩
        simp only [odErase]
        omega
      · simp only [hk, if_false]
        exact ⟨h, by trivial⟩

lemma applyOps_bound :
    ∀ (ops : List (CacheOp α)) (c : DataCache α),
      c.entries.length ≤ c.max_size →
      (applyOps c ops).entries.length ≤ (applyOps c ops).max_size ∧
        (applyOps c ops).max_size = c.max_size := by
  intro ops
  induction ops with
  | nil => intro c h; exact ⟨h, rfl⟩
  | cons op ops ih =>
      intro c h
      have h1 := applyOp_bound c op h
      have h2 := ih (applyOp c op) h1.1
      have hfold : applyOps c (op :: ops) = applyOps (applyOp c op) ops := rfl
      rw [hfold]
      exact ⟨h2.1, h2.2.trans h1.2⟩

/-! ## Claim theorems about the data cache -/

/-- The `DataCache(max_size=2)` of the spec's LRU eviction scenario. -/
def lruScenarioCache : DataCache Int :=
  { name := "scenario", default_ttl := 600, max_size := 2 }

/-- The scenario's operation sequence `set("a",1); set("b",2); set("c",3)`,
all issued at time 0 with the default TTL. -/
def lruScenarioOps : List (CacheOp Int) :=
  [CacheOp.set "a" 1 none 0, CacheOp.set "b" 2 none 0, CacheOp.set "c" 3 none 0]

/-- C4: for every cache with `max_size ≥ 1` whose map respects the bound, any
sequence of get/set/delete operations keeps the number of stored entries at
most `max_size`; and in the concrete `max_size = 2` scenario,
`set("a",1); set("b",2); set("c",3)` with no intervening access of `"a"`
evicts exactly `"a"`: `get("a") = None`, `get("b") = 2`, `get("c") = 3`. -/
theorem cache_size_invariant_and_lru (α : Type) (c : DataCache α)
    (h1 : 1 ≤ c.max_size) (hsz : c.entries.length ≤ c.max_size)
    (ops : List (CacheOp α)) :
    (applyOps c ops).entries.length ≤ c.max_size ∧
    (dcGet (applyOps lruScenarioCache lruScenarioOps) "a" 0).1 = none ∧
    (dcGet (applyOps lruScenarioCache lruScenarioOps) "b" 0).1 = some 2 ∧
    (dcGet (applyOps lruScenarioCache lruScenarioOps) "c" 0).1 = some 3 := by
  have hb := applyOps_bound ops c hsz
  have hrun : applyOps lruScenarioCache lruScenarioOps =
      { name := "scenario", default_ttl := 600, max_size := 2,
        entries := [("b", { data := 2, timestamp := 0, ttl := 600, hit_count := 0 }),
                    ("c", { data := 3, timestamp := 0, ttl := 600, hit_count := 0 })],
        hits := 0, misses := 0 } := by decide
  have hfresh : ∀ d : Int,
      CacheEntry.is_expired { data := d, timestamp := 0, ttl := 600, hit_count := 0 } 0
        = false := by
    intro d
    norm_num [CacheEntry.is_expired]
  refine ⟨by omega, ?_, ?_, ?_⟩ <;> rw [hrun] <;> simp [dcGet, List.lookup, hfresh]

/-- Witness for C4 on the scenario cache itself with an empty operation list. -/
theorem cache_size_invariant_and_lru_witness :
    (applyOps lruScenarioCache []).entries.length ≤ lruScenarioCache.max_size ∧
    (dcGet (applyOps lruScenarioCache lruScenarioOps) "a" 0).1 = none ∧
    (dcGet (applyOps lruScenarioCache lruScenarioOps) "b" 0).1 = some 2 ∧
    (dcGet (applyOps lruScenarioCache lruScenarioOps) "c" 0).1 = some 3 :=
  cache_size_invariant_and_lru Int lruScenarioCache (by norm_num [lruScenarioCache])
    (by norm_num [lruScenarioCache]) []

/-- C7: for an entry stored with TTL `T`, a `get` strictly more than `T`
seconds after insertion returns `None`, removes the entry and increments
`misses`; a `get` strictly less than `T` seconds after insertion returns the
stored data, moves the entry (with its `hit_count` incremented) to the
most-recently-used end, and increments the cache's `hits`. -/
theorem cache_ttl_boundary (α : Type) (c : DataCache α) (key : String)
    (e : CacheEntry α) (now : ℚ) (hlook : c.entries.lookup key = some e) :
    (e.ttl < now - e.timestamp →
       (dcGet c key now).1 = none ∧
       (dcGet c key now).2.misses = c.misses + 1 ∧
       (dcGet c key now).2.entries.lookup key = none) ∧
    (now - e.timestamp < e.ttl →
       (dcGet c key now).1 = some e.data ∧
       (dcGet c key now).2.hits = c.hits + 1 ∧
       (dcGet c key now).2.entries.getLast? =
         some (key, { e with hit_count := e.hit_count + 1 })) := by
  constructor
  · intro hexp
    have hb : e.is_expired now = true := by
      simp only [CacheEntry.is_expired, gt_iff_lt, decide_eq_true_eq]
      exact hexp
    simp only [dcGet, hlook, hb, if_true]
    exact ⟨by trivial, by trivial, odErase_lookup_none key c.entries⟩
  · intro hfr
    have hb : e.is_expired now = false := by
      simp only [CacheEntry.is_expired, gt_iff_lt, decide_eq_false_iff_not]
      exact not_lt.mpr (le_of_lt hfr)
    simp only [dcGet, hlook, hb, Bool.false_eq_true, if_false]
    refine ⟨by trivial, by trivial, ?_⟩
    simp

/-- A one-entry cache used to witness C7: key `"k"` holds data 7, inserted at
time 0 with `ttl = 10`. -/
def ttlWitnessCache : DataCache Int :=
  { name := "ttl", default_ttl := 600, max_size := 10,
    entries := [("k", { data := 7, timestamp := 0, ttl := 10, hit_count := 0 })] }

/-- Witness for C7: reading the `ttl = 10` entry at time 11 misses and deletes
it; reading it at time 5 hits, bumps the counters and moves it to the
most-recently-used end. -/
theorem cache_ttl_boundary_witness :
    ((dcGet ttlWitnessCache "k" 11).1 = none ∧
     (dcGet ttlWitnessCache "k" 11).2.misses = ttlWitnessCache.misses + 1 ∧
     (dcGet ttlWitnessCache "k" 11).2.entries.lookup "k" = none) ∧
    ((dcGet ttlWitnessCache "k" 5).1 = some 7 ∧
     (dcGet ttlWitnessCache "k" 5).2.hits = ttlWitnessCache.hits + 1 ∧
     (dcGet ttlWitnessCache "k" 5).2.entries.getLast? =
       some ("k", { data := 7, timestamp := 0, ttl := 10, hit_count := 1 })) := by
  constructor
  · exact (cache_ttl_boundary Int ttlWitnessCache "k"
      { data := 7, timestamp := 0, ttl := 10, hit_count := 0 } 11 (by decide)).1
      (by norm_num)
  · exact (cache_ttl_boundary Int ttlWitnessCache "k"
      { data := 7, timestamp := 0, ttl := 10, hit_count := 0 } 5 (by decide)).2
      (by norm_num)

/-- C10: `DataCache.set` succeeds exactly when `max_size ≥ 1`; with
`max_size = 0` the eviction loop drains the map and then `popitem` raises on
the empty `OrderedDict` (modelled as `none`), so `set` is total only under the
precondition `max_size ≥ 1`. -/
theorem cache_set_total_iff_capacity (α : Type) (c : DataCache α) (key : String)
    (data : α) (ttl : Option ℚ) (now : ℚ) :
    (dcSet c key data ttl now).isSome ↔ 1 ≤ c.max_size := by
  unfold dcSet
  cases he : odEvict c.entries c.max_size with
  | none =>
      have := (odEvict_isSome c.max_size c.entries).symm
      rw [he] at this
      simp at this ⊢
      omega
  | some l =>
      have := (odEvict_isSome c.max_size c.entries).symm
      rw [he] at this
      simp at this ⊢
      omega

/-! ## Retry with exponential backoff (`rate_limiter.py`) -/

/-- The backoff delay the wrapper sleeps before retry number `attempt`:
`min(base_delay * exponential_base ** (attempt - 1), max_delay)` scaled by the
jitter factor drawn from `uniform(0.8, 1.2)`. -/
def backoffDelay (base_delay max_delay exponential_base : ℚ) (attempt : Nat)
    (jitterFactor : ℚ) : ℚ :=
  min (base_delay * exponential_base ^ (attempt - 1)) max_delay * jitterFactor

/-- Observable trace of one call to a function wrapped by
`retry_with_backoff`: how many times the wrapped function ran, the sleeps
performed between attempts, the `on_retry(attempt, e)` invocations, and the
outcome; `Except.error none` models the unreachable `raise last_exception`
with `last_exception = None`. -/
structure RetryTrace (α : Type) where
  calls : Nat
  sleeps : List ℚ
  on_retry_calls : List (Nat × String)
  outcome : Except (Option String) α

/-- The `for attempt in range(1, max_attempts + 1)` loop of the wrapper built
by `retry_with_backoff`, starting at attempt number `attempt` with the last
caught exception `last_exception`. The wrapped function is `f` (indexed by
attempt number), and `jitter n` is the `uniform(0.8, 1.2)` factor drawn
before retry `n`. -/
def retryFrom (max_attempts : Nat) (base_delay max_delay exponential_base : ℚ)
    (f : Nat → Except String α) (jitter : Nat → ℚ) (last_exception : Option String)
    (attempt : Nat) : RetryTrace α :=
  if max_attempts < attempt then
    { calls := 0, sleeps := [], on_retry_calls := [],
      outcome := Except.error last_exception }
  else
    match f attempt with
    | Except.ok a =>
        { calls := 1, sleeps := [], on_retry_calls := [], outcome := Except.ok a }
    | Except.error e =>
        if attempt = max_attempts then
          { calls := 1, sleeps := [], on_retry_calls := [],
            outcome := Except.error (some e) }
        else
          let d := backoffDelay base_delay max_delay exponential_base attempt
            (jitter attempt)
          let rest := retryFrom max_attempts base_delay max_delay exponential_base
            f jitter (some e) (attempt + 1)
          { calls := rest.calls + 1, sleeps := d :: rest.sleeps,
            on_retry_calls := (attempt, e) :: rest.on_retry_calls,
            outcome := rest.outcome }
termination_by max_attempts + 1 - attempt
decreasing_by simp_wf; omega

/-- A full call of a function wrapped by
`retry_with_backoff(max_attempts, base_delay, max_delay, exponential_base)`. -/
def retry_with_backoff (max_attempts : Nat)
    (base_delay max_delay exponential_base : ℚ) (f : Nat → Except String α)
    (jitter : Nat → ℚ) : RetryTrace α :=
  retryFrom max_attempts base_delay max_delay exponential_base f jitter none 1

lemma retryFrom_all_fail (max_attempts : Nat)
    (base_delay max_delay exponential_base : ℚ) (err : Nat → String)
    (jitter : Nat → ℚ) (f : Nat → Except String α)
    (hf : ∀ n, f n = Except.error (err n)) :
    ∀ (k attempt : Nat) (last_exception : Option String),
      attempt + k = max_attempts → 1 ≤ attempt →
      retryFrom max_attempts base_delay max_delay exponential_base f jitter
          last_exception attempt =
        { calls := k + 1,
          sleeps := (List.range' attempt k).map
            (fun i => backoffDelay base_delay max_delay exponential_base i (jitter i)),
          on_retry_calls := (List.range' attempt k).map (fun i => (i, err i)),
          outcome := Except.error (some (err max_attempts)) } := by
  intro k
  induction k with
  | zero =>
      intro attempt last_exception hsum h1
      rw [retryFrom]
      have hle : ¬ (max_attempts < attempt) := by omega
      rw [if_neg hle, hf attempt]
      have heq : attempt = max_attempts := by omega
      simp [heq, List.range']
  | succ k ih =>
      intro attempt last_exception hsum h1
      rw [retryFrom]
      have hle : ¬ (max_attempts < attempt) := by omega
      rw [if_neg hle, hf attempt]
      have hne : ¬ (attempt = max_attempts) := by omega
      simp only [if_neg hne]
      have hrec := ih (attempt + 1) (some (err attempt)) (by omega) (by omega)
      rw [hrec]
      simp [List.range'_succ]

/-- C8: a function wrapped by `retry_with_backoff` that raises a retryable
exception on every call is invoked exactly `max_attempts` times; before retry
`attempt`+1 the wrapper sleeps
`min(base_delay * exponential_base^(attempt-1), max_delay)` scaled by the
jitter factor, the `on_retry` callback fires once before each of the
`max_attempts - 1` non-final retries with the attempt number and exception,
and the final attempt's exception is re-raised. -/
theorem retry_backoff_exhaustion (α : Type) (max_attempts : Nat)
    (base_delay max_delay exponential_base : ℚ) (err : Nat → String)
    (jitter : Nat → ℚ) (f : Nat → Except String α)
    (hmax : 1 ≤ max_attempts) (hf : ∀ n, f n = Except.error (err n)) :
    retry_with_backoff max_attempts base_delay max_delay exponential_base f jitter =
      { calls := max_attempts,
        sleeps := (List.range' 1 (max_attempts - 1)).map
          (fun i => backoffDelay base_delay max_delay exponential_base i (jitter i)),
        on_retry_calls := (List.range' 1 (max_attempts - 1)).map
          (fun i => (i, err i)),
        outcome := Except.error (some (err max_attempts)) } := by
  unfold retry_with_backoff
  have h := retryFrom_all_fail max_attempts base_delay max_delay exponential_base
    err jitter f hf (max_attempts - 1) 1 none (by omega) (by omega)
  rw [h]
  congr 1
  omega

/-- Witness for C8 with the decorator's default parameters
(`max_attempts = 3`, `base_delay = 2`, `max_delay = 30`,
`exponential_base = 2`), a function that always raises `"boom"`, and jitter
factor 1: three calls, sleeps of 2s then 4s, two `on_retry` invocations, and
`"boom"` re-raised. -/
theorem retry_backoff_exhaustion_witness :
    retry_with_backoff 3 2 30 2 (fun _ => (Except.error "boom" : Except String Unit))
        (fun _ => 1) =
      { calls := 3, sleeps := [2, 4],
        on_retry_calls := [(1, "boom"), (2, "boom")],
        outcome := Except.error (some "boom") } := by
  have h := retry_backoff_exhaustion Unit 3 2 30 2 (fun _ => "boom") (fun _ => 1)
    (fun _ => Except.error "boom") (by norm_num) (fun _ => rfl)
  rw [h]
  norm_num [backoffDelay, List.range']

/-! ## Kline adapters (`data_manager.py`)

Each `_fetch_*_kline` adapter first parses the provider's HTTP response into a
raw list of candles (kept abstract here: the raw parsed list is the input) and
then post-processes it. The post-processing is what the normalization
contract is about, and it differs between adapters. -/

/-- One candle in the canonical shape produced by every adapter. -/
structure Kline where
  time : Int
  opn : ℚ := 0
  high : ℚ := 0
  low : ℚ := 0
  close : ℚ := 0
  volume : ℚ := 0
deriving DecidableEq

/-- Python truthiness of the optional `before_time` argument
(`if before_time:`): `None` and `0` are both falsy. -/
def beforeTimeTruthy : Option Int → Bool
  | none => false
  | some t => decide (t ≠ 0)

/-- `klines.sort(key=lambda x: x['time'])`: ascending stable sort by time. -/
def sortedByTime (l : List Kline) : List Kline :=
  List.insertionSort (fun a b => a.time ≤ b.time) l

/-- `if before_time: klines = [k for k in klines if k['time'] < before_time]`. -/
def filterBefore (l : List Kline) (before_time : Option Int) : List Kline :=
  if beforeTimeTruthy before_time then
    l.filter (fun k => decide (k.time < before_time.getD 0))
  else
    l

/-- `if len(klines) > limit: klines = klines[-limit:]`; Python's `klines[-0:]`
is `klines[0:]`, the whole list, so `limit = 0` truncates nothing. -/
def tailLimit (l : List Kline) (limit : Nat) : List Kline :=
  if limit < l.length then
    if limit = 0 then l else l.drop (l.length - limit)
  else l

/-- `df.tail(limit)`: the last `limit` rows of a DataFrame, in order (pandas
special-cases `tail(0)` to return an empty frame). -/
def dfTail (l : List Kline) (limit : Nat) : List Kline :=
  l.drop (l.length - limit)

/-- Post-processing of `_fetch_eastmoney_kline`: sort, filter strictly before
`before_time` (when truthy), keep the tail `limit` entries. -/
def fetch_eastmoney_post (raw : List Kline) (before_time : Option Int)
    (limit : Nat) : List Kline :=
  tailLimit (filterBefore (sortedByTime raw) before_time) limit

/-- Post-processing of `_fetch_tencent_kline`: identical sort/filter/tail
pipeline to the eastmoney adapter. -/
def fetch_tencent_post (raw : List Kline) (before_time : Option Int)
    (limit : Nat) : List Kline :=
  tailLimit (filterBefore (sortedByTime raw) before_time) limit

/-- Post-processing of `_fetch_akshare_kline`: only `df.tail(limit)` on the
upstream frame — no sort and no `before_time` filter (`before_time` merely
influences the `end_date` request parameter upstream). -/
def fetch_akshare_post (raw : List Kline) (before_time : Option Int)
    (limit : Nat) : List Kline :=
  dfTail raw limit

/-- Post-processing of `_fetch_yfinance_kline`: only `df.tail(limit)`;
`before_time` is not referenced anywhere in the adapter. -/
def fetch_yfinance_post (raw : List Kline) (before_time : Option Int)
    (limit : Nat) : List Kline :=
  dfTail raw limit

/-! ## Kline normalization lemmas -/

lemma tailLimit_suffix (l : List Kline) (limit : Nat) : tailLimit l limit <:+ l := by
  unfold tailLimit
  by_cases h : limit < l.length
  · rw [if_pos h]
    by_cases h0 : limit = 0
    · rw [if_pos h0]
    · rw [if_neg h0]; exact List.drop_suffix _ _
  · rw [if_neg h]

lemma tailLimit_length (l : List Kline) (limit : Nat) (hl : 1 ≤ limit) :
    (tailLimit l limit).length ≤ limit := by
  unfold tailLimit
  by_cases h : limit < l.length
  · rw [if_pos h, if_neg (by omega : ¬ limit = 0)]
    simp [List.length_drop]
    omega
  · rw [if_neg h]; omega

lemma tailLimit_zero (l : List Kline) : tailLimit l 0 = l := by
  unfold tailLimit
  by_cases h : (0 : Nat) < l.length
  · rw [if_pos h, if_pos rfl]
  · rw [if_neg h]

lemma sortedByTime_sorted (raw : List Kline) :
    List.Sorted (fun a c : Kline => a.time ≤ c.time) (sortedByTime raw) := by
  letI : IsTotal Kline (fun a c : Kline => a.time ≤ c.time) :=
    ⟨fun a c => le_total a.time c.time⟩
  letI : IsTrans Kline (fun a c : Kline => a.time ≤ c.time) :=
    ⟨fun _ _ _ hab hbc => le_trans hab hbc⟩
  exact List.sorted_insertionSort _ raw

/-- C2 counterexample: the yfinance adapter ignores `before_time`, so with a
raw candle at time 10 and `before_time = 5` it returns an entry whose time is
not strictly before `before_time`, contradicting the claimed contract. -/
theorem kline_contract_counterexample :
    ¬ (∀ k ∈ fetch_yfinance_post [{ time := 10 }] (some 5) 5, k.time < 5) := by
  intro h
  have hmem : ({ time := 10 } : Kline) ∈ fetch_yfinance_post [{ time := 10 }] (some 5) 5 := by
    simp [fetch_yfinance_post, dfTail]
  have := h { time := 10 } hmem
  norm_num at this

/-- C2 amended: the eastmoney and tencent adapters satisfy the normalization
contract for every `limit ≥ 1` — ascending by time, strictly before a truthy
`before_time`, at most `limit` entries, which are the tail of the sorted
filtered list — and at `limit = 0` they return the whole sorted filtered list
(Python's `klines[-0:]` truncates nothing); the akshare and yfinance adapters
only keep the last `min(len, limit)` entries of the upstream result unchanged
(no sort, no `before_time` filter; yfinance ignores `before_time`
altogether). -/
theorem kline_contract_amended (raw : List Kline) (b : Int) (hb : b ≠ 0)
    (limit : Nat) (bt1 bt2 : Option Int) :
    List.Sorted (fun a c : Kline => a.time ≤ c.time)
      (fetch_eastmoney_post raw (some b) limit) ∧
    (∀ k ∈ fetch_eastmoney_post raw (some b) limit, k.time < b) ∧
    (1 ≤ limit → (fetch_eastmoney_post raw (some b) limit).length ≤ limit) ∧
    fetch_eastmoney_post raw (some b) 0 = filterBefore (sortedByTime raw) (some b) ∧
    fetch_eastmoney_post raw (some b) limit <:+
      filterBefore (sortedByTime raw) (some b) ∧
    fetch_tencent_post raw (some b) limit = fetch_eastmoney_post raw (some b) limit ∧
    fetch_akshare_post raw bt1 limit <:+ raw ∧
    (fetch_akshare_post raw bt1 limit).length = min raw.length limit ∧
    fetch_yfinance_post raw bt1 limit = fetch_yfinance_post raw bt2 limit := by
  have htruthy : beforeTimeTruthy (some b) = true := by
    simp [beforeTimeTruthy, hb]
  have hfb : filterBefore (sortedByTime raw) (some b) =
      (sortedByTime raw).filter (fun k => decide (k.time < b)) := by
    simp [filterBefore, htruthy]
  refine ⟨?_, ?_, ?_, ?_, ?_, rfl, ?_, ?_, rfl⟩
  · unfold fetch_eastmoney_post
    apply List.Pairwise.sublist (tailLimit_suffix _ limit).sublist
    rw [hfb]
    exact List.Pairwise.sublist (List.filter_sublist _) (sortedByTime_sorted raw)
  · intro k hk
    unfold fetch_eastmoney_post at hk
    have hk2 := (tailLimit_suffix _ limit).sublist.subset hk
    rw [hfb] at hk2
    have := (List.mem_filter.mp hk2).2
    simpa using this
  · intro hl
    exact tailLimit_length _ limit hl
  · exact tailLimit_zero _
  · exact tailLimit_suffix _ limit
  · exact List.drop_suffix _ raw
  · simp [fetch_akshare_post, dfTail, List.length_drop]
    omega

/-- Witness for C2 (amended) on a concrete unsorted raw list with
`before_time = 5` and `limit = 1`. -/
theorem kline_contract_amended_witness :
    (5 : Int) ≠ 0 ∧
    (List.Sorted (fun a c : Kline => a.time ≤ c.time)
      (fetch_eastmoney_post [{ time := 7 }, { time := 3 }, { time := 9 }] (some 5) 1) ∧
    (∀ k ∈ fetch_eastmoney_post [{ time := 7 }, { time := 3 }, { time := 9 }] (some 5) 1,
      k.time < 5) ∧
    (1 ≤ 1 →
      (fetch_eastmoney_post [{ time := 7 }, { time := 3 }, { time := 9 }]
        (some 5) 1).length ≤ 1) ∧
    fetch_eastmoney_post [{ time := 7 }, { time := 3 }, { time := 9 }] (some 5) 0 =
      filterBefore (sortedByTime [{ time := 7 }, { time := 3 }, { time := 9 }]) (some 5) ∧
    fetch_eastmoney_post [{ time := 7 }, { time := 3 }, { time := 9 }] (some 5) 1 <:+
      filterBefore (sortedByTime [{ time := 7 }, { time := 3 }, { time := 9 }]) (some 5) ∧
    fetch_tencent_post [{ time := 7 }, { time := 3 }, { time := 9 }] (some 5) 1 =
      fetch_eastmoney_post [{ time := 7 }, { time := 3 }, { time := 9 }] (some 5) 1 ∧
    fetch_akshare_post [{ time := 7 }, { time := 3 }, { time := 9 }] (some 0) 1 <:+
      [{ time := 7 }, { time := 3 }, { time := 9 }] ∧
    (fetch_akshare_post [{ time := 7 }, { time := 3 }, { time := 9 }] (some 0) 1).length =
      min ([{ time := 7 }, { time := 3 }, { time := 9 }] : List Kline).length 1 ∧
    fetch_yfinance_post [{ time := 7 }, { time := 3 }, { time := 9 }] (some 0) 1 =
      fetch_yfinance_post [{ time := 7 }, { time := 3 }, { time := 9 }] none 1) :=
  ⟨by decide,
   kline_contract_amended [{ time := 7 }, { time := 3 }, { time := 9 }] 5 (by decide) 1
     (some 0) none⟩

/-! ## Data source manager (`data_manager.py`) -/

/-- One value of a Python quote dict (floats and the symbol string). -/
inductive QVal where
  | num (x : ℚ)
  | str (s : String)
deriving DecidableEq

/-- A quote dict, as the association list of its items. -/
abbrev Quote : Type := List (String × QVal)

/-- `quote.get('last', 0)` for the numeric `last` field. -/
def quoteLast (q : Quote) : ℚ :=
  match q.lookup "last" with
  | some (QVal.num x) => x
  | _ => 0

/-- The sentinel `{'last': 0, 'symbol': symbol}` returned by
`get_realtime_quote` on total exhaustion. -/
def emptyQuote (symbol : String) : Quote :=
  [("last", QVal.num 0), ("symbol", QVal.str symbol)]

/-- The fixed provider order of `get_kline`. -/
def klineSources : List String := ["eastmoney", "tencent", "akshare", "yfinance"]

/-- The fixed provider order of `get_realtime_quote`. -/
def quoteSources : List String := ["eastmoney", "tencent", "akshare"]

/-- `generate_kline_cache_key`: `"{symbol}:{timeframe}:{limit}[:{before_time}]"`
(the suffix only when `before_time` is truthy). -/
def generate_kline_cache_key (symbol timeframe : String) (limit : Nat)
    (before_time : Option Int) : String :=
  let key := symbol ++ ":" ++ timeframe ++ ":" ++ toString limit
  if beforeTimeTruthy before_time then key ++ ":" ++ toString (before_time.getD 0)
  else key

/-- The provider walk of `get_kline` over the remaining source list. `fetch`
gives each adapter's outcome (`Except.error` = raised exception); on a
non-empty result the breaker records a success, the cache is populated and the
walk returns; on an exception the breaker records a failure and the walk
continues; an empty result just continues. A cache `set` whose eviction loop
raises (`max_size = 0`) is caught by the same `except` clause after the map
was drained, recording a failure for the source that had just succeeded. -/
def getKlineWalk (cfg : CBConfig) (now : ℚ) (has_akshare : Bool)
    (fetch : String → Except String (List Kline)) (use_cache : Bool) (key : String) :
    List String → DataCache (List Kline) → CB →
      (List Kline × String) × DataCache (List Kline) × CB
  | [], cache, cb => (([], ""), cache, cb)
  | src :: rest, cache, cb =>
      let avail := cb_is_available cfg cb src now
      if avail.1 = false then
        getKlineWalk cfg now has_akshare fetch use_cache key rest cache avail.2
      else if src = "akshare" ∧ has_akshare = false then
        getKlineWalk cfg now has_akshare fetch use_cache key rest cache avail.2
      else
        match fetch src with
        | Except.error e =>
            getKlineWalk cfg now has_akshare fetch use_cache key rest cache
              (cb_record_failure cfg avail.2 src now (some e))
        | Except.ok ks =>
            if ks.isEmpty then
              getKlineWalk cfg now has_akshare fetch use_cache key rest cache avail.2
            else
              let cb1 := cb_record_success avail.2 src
              if use_cache then
                match dcSet cache key ks none now with
                | some cache1 => ((ks, src), cache1, cb1)
                | none =>
                    getKlineWalk cfg now has_akshare fetch use_cache key rest
                      { cache with entries := [] }
                      (cb_record_failure cfg cb1 src now (some "KeyError"))
              else ((ks, src), cache, cb1)

/-- `AShareDataManager.get_kline`: cache-first lookup (a cached empty list is
falsy and does not count as a hit), then the provider walk. -/
def get_kline (cfg : CBConfig) (now : ℚ) (has_akshare : Bool)
    (fetch : String → Except String (List Kline)) (symbol timeframe : String)
    (limit : Nat) (before_time : Option Int) (use_cache : Bool)
    (cache : DataCache (List Kline)) (cb : CB) :
    (List Kline × String) × DataCache (List Kline) × CB :=
  let key := generate_kline_cache_key symbol timeframe limit before_time
  if use_cache then
    let r := dcGet cache key now
    match r.1 with
    | some ks =>
        if ks.isEmpty then
          getKlineWalk cfg now has_akshare fetch use_cache key klineSources r.2 cb
        else
          ((ks, "cache"), r.2, cb)
    | none => getKlineWalk cfg now has_akshare fetch use_cache key klineSources r.2 cb
  else
    getKlineWalk cfg now has_akshare fetch use_cache key klineSources cache cb

/-- The provider walk of `get_realtime_quote`; success requires a truthy quote
dict with `quote.get('last', 0) > 0`, and a successful quote is cached with
`ttl = 60`. -/
def getQuoteWalk (cfg : CBConfig) (now : ℚ) (has_akshare : Bool)
    (fetchq : String → Except String Quote) (use_cache : Bool) (symbol : String) :
    List String → DataCache Quote → CB → (Quote × String) × DataCache Quote × CB
  | [], cache, cb => ((emptyQuote symbol, ""), cache, cb)
  | src :: rest, cache, cb =>
      let avail := cb_is_available cfg cb src now
      if avail.1 = false then
        getQuoteWalk cfg now has_akshare fetchq use_cache symbol rest cache avail.2
      else if src = "akshare" ∧ has_akshare = false then
        getQuoteWalk cfg now has_akshare fetchq use_cache symbol rest cache avail.2
      else
        match fetchq src with
        | Except.error e =>
            getQuoteWalk cfg now has_akshare fetchq use_cache symbol rest cache
              (cb_record_failure cfg avail.2 src now (some e))
        | Except.ok q =>
            if q.isEmpty = false ∧ quoteLast q > 0 then
              let cb1 := cb_record_success avail.2 src
              if use_cache then
                match dcSet cache ("quote:" ++ symbol) q (some 60) now with
                | some cache1 => ((q, src), cache1, cb1)
                | none =>
                    getQuoteWalk cfg now has_akshare fetchq use_cache symbol rest
                      { cache with entries := [] }
                      (cb_record_failure cfg cb1 src now (some "KeyError"))
              else ((q, src), cache, cb1)
            else
              getQuoteWalk cfg now has_akshare fetchq use_cache symbol rest cache avail.2

/-- `AShareDataManager.get_realtime_quote`: cache-first lookup under key
`"quote:{symbol}"` (an empty cached dict is falsy), then the provider walk. -/
def get_realtime_quote (cfg : CBConfig) (now : ℚ) (has_akshare : Bool)
    (fetchq : String → Except String Quote) (symbol : String) (use_cache : Bool)
    (cache : DataCache Quote) (cb : CB) : (Quote × String) × DataCache Quote × CB :=
  if use_cache then
    let r := dcGet cache ("quote:" ++ symbol) now
    match r.1 with
    | some q =>
        if q.isEmpty then
          getQuoteWalk cfg now has_akshare fetchq use_cache symbol quoteSources r.2 cb
        else
          ((q, "cache"), r.2, cb)
    | none => getQuoteWalk cfg now has_akshare fetchq use_cache symbol quoteSources r.2 cb
  else
    getQuoteWalk cfg now has_akshare fetchq use_cache symbol quoteSources cache cb

/-- A kline provider is skipped (breaker-unavailable, or akshare without the
optional dependency) or raises. -/
def kSkipOrFail (cfg : CBConfig) (cb : CB) (now : ℚ) (has_akshare : Bool)
    (fetch : String → Except String (List Kline)) (src : String) : Prop :=
  (is_available cfg (cb src) now).1 = false ∨
    (src = "akshare" ∧ has_akshare = false) ∨
    ∃ e, fetch src = Except.error e

/-- A quote provider is skipped or raises. -/
def qSkipOrFail (cfg : CBConfig) (cb : CB) (now : ℚ) (has_akshare : Bool)
    (fetchq : String → Except String Quote) (src : String) : Prop :=
  (is_available cfg (cb src) now).1 = false ∨
    (src = "akshare" ∧ has_akshare = false) ∨
    ∃ e, fetchq src = Except.error e

/-! ## Manager lemmas -/

lemma cbUpdate_ne (cb : CB) (src t : String) (st : SourceState) (h : t ≠ src) :
    cbUpdate cb src st t = cb t := by
  simp [cbUpdate, h]

lemma cb_is_available_ne (cfg : CBConfig) (cb : CB) (src t : String) (now : ℚ)
    (h : t ≠ src) : (cb_is_available cfg cb src now).2 t = cb t := by
  simp [cb_is_available, cbUpdate_ne _ _ _ _ h]

lemma cb_record_failure_ne (cfg : CBConfig) (cb : CB) (src t : String) (now : ℚ)
    (e : Option String) (h : t ≠ src) :
    (cb_record_failure cfg cb src now e) t = cb t := by
  simp [cb_record_failure, cbUpdate_ne _ _ _ _ h]

lemma kSkipOrFail_congr (cfg : CBConfig) (cb1 cb2 : CB) (now : ℚ)
    (has_akshare : Bool) (fetch : String → Except String (List Kline)) (t : String)
    (h : cb1 t = cb2 t) :
    kSkipOrFail cfg cb2 now has_akshare fetch t →
      kSkipOrFail cfg cb1 now has_akshare fetch t := by
  unfold kSkipOrFail
  rw [h]
  exact id

lemma qSkipOrFail_congr (cfg : CBConfig) (cb1 cb2 : CB) (now : ℚ)
    (has_akshare : Bool) (fetchq : String → Except String Quote) (t : String)
    (h : cb1 t = cb2 t) :
    qSkipOrFail cfg cb2 now has_akshare fetchq t →
      qSkipOrFail cfg cb1 now has_akshare fetchq t := by
  unfold qSkipOrFail
  rw [h]
  exact id

lemma getKlineWalk_exhaust (cfg : CBConfig) (now : ℚ) (has_akshare : Bool)
    (fetch : String → Except String (List Kline)) (use_cache : Bool) (key : String) :
    ∀ l : List String, l.Nodup →
      ∀ (cache : DataCache (List Kline)) (cb : CB),
        (∀ s ∈ l, kSkipOrFail cfg cb now has_akshare fetch s) →
        (getKlineWalk cfg now has_akshare fetch use_cache key l cache cb).1 = ([], "") := by
  intro l
  induction l with
  | nil => intro _ cache cb _; rfl
  | cons s rest ih =>
      intro hnd cache cb hall
      rw [List.nodup_cons] at hnd
      have hrest : ∀ (cb' : CB), (∀ t, t ≠ s → cb' t = cb t) →
          ∀ t ∈ rest, kSkipOrFail cfg cb' now has_akshare fetch t := by
        intro cb' hagree t ht
        have hne : t ≠ s := fun hc => hnd.1 (hc ▸ ht)
        exact kSkipOrFail_congr cfg cb' cb now has_akshare fetch t (hagree t hne)
          (hall t (List.mem_cons_of_mem s ht))
      rw [getKlineWalk]
      by_cases hb : (cb_is_available cfg cb s now).1 = false
      · rw [if_pos hb]
        exact ih hnd.2 cache _ (hrest _ (fun t ht => cb_is_available_ne cfg cb s t now ht))
      · rw [if_neg hb]
        by_cases hsk : s = "akshare" ∧ has_akshare = false
        · rw [if_pos hsk]
          exact ih hnd.2 cache _
            (hrest _ (fun t ht => cb_is_available_ne cfg cb s t now ht))
        · rw [if_neg hsk]
          cases hf : fetch s with
          | error e =>
              simp only
              exact ih hnd.2 cache _
                (hrest _ (fun t ht => by
                  rw [cb_record_failure_ne cfg _ s t now (some e) ht,
                    cb_is_available_ne cfg cb s t now ht]))
          | ok ks =>
              exfalso
              rcases hall s (List.mem_cons_self s rest) with h1 | h2 | ⟨e, h3⟩
              · exact hb (by simpa [cb_is_available] using h1)
              · exact hsk h2
              · rw [hf] at h3; cases h3

lemma getQuoteWalk_exhaust (cfg : CBConfig) (now : ℚ) (has_akshare : Bool)
    (fetchq : String → Except String Quote) (use_cache : Bool) (symbol : String) :
    ∀ l : List String, l.Nodup →
      ∀ (cache : DataCache Quote) (cb : CB),
        (∀ s ∈ l, qSkipOrFail cfg cb now has_akshare fetchq s) →
        (getQuoteWalk cfg now has_akshare fetchq use_cache symbol l cache cb).1 =
          (emptyQuote symbol, "") := by
  intro l
  induction l with
  | nil => intro _ cache cb _; rfl
  | cons s rest ih =>
      intro hnd cache cb hall
      rw [List.nodup_cons] at hnd
      have hrest : ∀ (cb' : CB), (∀ t, t ≠ s → cb' t = cb t) →
          ∀ t ∈ rest, qSkipOrFail cfg cb' now has_akshare fetchq t := by
        intro cb' hagree t ht
        have hne : t ≠ s := fun hc => hnd.1 (hc ▸ ht)
        exact qSkipOrFail_congr cfg cb' cb now has_akshare fetchq t (hagree t hne)
          (hall t (List.mem_cons_of_mem s ht))
      rw [getQuoteWalk]
      by_cases hb : (cb_is_available cfg cb s now).1 = false
      · rw [if_pos hb]
        exact ih hnd.2 cache _ (hrest _ (fun t ht => cb_is_available_ne cfg cb s t now ht))
      · rw [if_neg hb]
        by_cases hsk : s = "akshare" ∧ has_akshare = false
        · rw [if_pos hsk]
          exact ih hnd.2 cache _
            (hrest _ (fun t ht => cb_is_available_ne cfg cb s t now ht))
        · rw [if_neg hsk]
          cases hf : fetchq s with
          | error e =>
              simp only
              exact ih hnd.2 cache _
                (hrest _ (fun t ht => by
                  rw [cb_record_failure_ne cfg _ s t now (some e) ht,
                    cb_is_available_ne cfg cb s t now ht]))
          | ok q =>
              exfalso
              rcases hall s (List.mem_cons_self s rest) with h1 | h2 | ⟨e, h3⟩
              · exact hb (by simpa [cb_is_available] using h1)
              · exact hsk h2
              · rw [hf] at h3; cases h3

set_option maxHeartbeats 1600000 in
/-- C3: when every provider is skipped (breaker-open or missing dependency)
or raises, `get_kline` returns exactly `([], "")` and `get_realtime_quote`
returns the sentinel `{'last': 0, 'symbol': symbol}` with an empty source tag;
no adapter exception escapes either public method (both walks are total and
consume the `Except.error` outcomes). -/
theorem provider_exhaustion_empty_results (cfg cfgq : CBConfig) (now : ℚ)
    (has_akshare : Bool) (fetch : String → Except String (List Kline))
    (fetchq : String → Except String Quote) (symbol timeframe : String)
    (limit : Nat) (before_time : Option Int) (use_cache_k use_cache_q : Bool)
    (cacheK : DataCache (List Kline)) (cacheQ : DataCache Quote) (cb cbq : CB)
    (hkmiss : ∀ ks, (dcGet cacheK
        (generate_kline_cache_key symbol timeframe limit before_time) now).1 =
        some ks → ks = [])
    (hqmiss : ∀ q, (dcGet cacheQ ("quote:" ++ symbol) now).1 = some q → q = [])
    (hkall : ∀ s ∈ klineSources, kSkipOrFail cfg cb now has_akshare fetch s)
    (hqall : ∀ s ∈ quoteSources, qSkipOrFail cfgq cbq now has_akshare fetchq s) :
    (get_kline cfg now has_akshare fetch symbol timeframe limit before_time
        use_cache_k cacheK cb).1 = ([], "") ∧
    (get_realtime_quote cfgq now has_akshare fetchq symbol use_cache_q
        cacheQ cbq).1 = (emptyQuote symbol, "") := by
  have hknd : klineSources.Nodup := by decide
  have hqnd : quoteSources.Nodup := by decide
  constructor
  · unfold get_kline
    by_cases hu : use_cache_k
    · simp only [hu, if_true]
      cases hres : (dcGet cacheK
          (generate_kline_cache_key symbol timeframe limit before_time) now).1 with
      | none =>
          simp only
          exact getKlineWalk_exhaust cfg now has_akshare fetch true _
            klineSources hknd _ cb hkall
      | some ks =>
          have hks : ks = [] := hkmiss ks hres
          simp only [hks, List.isEmpty_nil, if_true]
          exact getKlineWalk_exhaust cfg now has_akshare fetch true _
            klineSources hknd _ cb hkall
    · simp only [hu, Bool.false_eq_true, if_false]
      exact getKlineWalk_exhaust cfg now has_akshare fetch false _
        klineSources hknd _ cb hkall
  · unfold get_realtime_quote
    by_cases hu : use_cache_q
    · simp only [hu, if_true]
      cases hres : (dcGet cacheQ ("quote:" ++ symbol) now).1 with
      | none =>
          simp only
          exact getQuoteWalk_exhaust cfgq now has_akshare fetchq true symbol
            quoteSources hqnd _ cbq hqall
      | some q =>
          have hq : q = [] := hqmiss q hres
          simp only [hq, List.isEmpty_nil, if_true]
          exact getQuoteWalk_exhaust cfgq now has_akshare fetchq true symbol
            quoteSources hqnd _ cbq hqall
    · simp only [hu, Bool.false_eq_true, if_false]
      exact getQuoteWalk_exhaust cfgq now has_akshare fetchq false symbol
        quoteSources hqnd _ cbq hqall

/-- Witness for C3: every provider raises (adapters all down), empty caches,
fresh breakers. -/
theorem provider_exhaustion_empty_results_witness :
    (get_kline {} 0 false (fun _ => Except.error "down") "600000" "1D" 10 none
        true {} initCB).1 = ([], "") ∧
    (get_realtime_quote {} 0 false (fun _ => Except.error "down") "600000" true
        {} initCB).1 = (emptyQuote "600000", "") := by
  refine provider_exhaustion_empty_results {} {} 0 false
    (fun _ => Except.error "down") (fun _ => Except.error "down") "600000" "1D" 10
    none true true {} {} initCB initCB ?_ ?_ ?_ ?_
  · intro ks h
    simp [dcGet, List.lookup] at h
  · intro q h
    simp [dcGet, List.lookup] at h
  · intro s _
    exact Or.inr (Or.inr ⟨"down", rfl⟩)
  · intro s _
    exact Or.inr (Or.inr ⟨"down", rfl⟩)

/-- C9 (amended): when a provider adapter invoked by `get_kline` returns an
empty but non-exceptional result, neither `record_success` nor
`record_failure` is invoked for that source and the walk proceeds to the next
provider in priority order; the source's record may still change inside the
preceding `is_available` call (the `Open` → `HalfOpen` cooldown transition),
which is the only modification applied to it. -/
theorem empty_result_records_no_outcome (cfg : CBConfig) (now : ℚ)
    (has_akshare : Bool) (fetch : String → Except String (List Kline))
    (use_cache : Bool) (key : String) (src : String) (rest : List String)
    (cache : DataCache (List Kline)) (cb : CB)
    (havail : (is_available cfg (cb src) now).1 = true)
    (hnsk : ¬ (src = "akshare" ∧ has_akshare = false))
    (hempty : fetch src = Except.ok []) :
    getKlineWalk cfg now has_akshare fetch use_cache key (src :: rest) cache cb =
      getKlineWalk cfg now has_akshare fetch use_cache key rest cache
        (cbUpdate cb src (is_available cfg (cb src) now).2) := by
  rw [getKlineWalk]
  have hb : ¬ ((cb_is_available cfg cb src now).1 = false) := by
    simp [cb_is_available, havail]
  rw [if_neg hb, if_neg hnsk, hempty]
  simp only [List.isEmpty_nil, if_true]
  rfl

/-- Witness for C9 (amended): fresh `Closed` breaker, eastmoney returns an
empty list, the walk proceeds with the record untouched by any outcome. -/
theorem empty_result_records_no_outcome_witness :
    ((is_available {} (initCB "eastmoney") 0).1 = true ∧
     ¬ ("eastmoney" = "akshare" ∧ true = false)) ∧
    getKlineWalk {} 0 true (fun _ => Except.ok []) false "k" ["eastmoney"] {} initCB =
      getKlineWalk {} 0 true (fun _ => Except.ok []) false "k" [] {}
        (cbUpdate initCB "eastmoney" (is_available {} (initCB "eastmoney") 0).2) :=
  ⟨⟨by decide, by decide⟩,
   empty_result_records_no_outcome {} 0 true (fun _ => Except.ok []) false "k"
     "eastmoney" [] {} initCB (by decide) (by decide) rfl⟩

/-- C9 counterexample: with the source `Open` and its cooldown elapsed, the
adapter returns an empty non-exceptional result, yet the source's record is
not left entirely unchanged: `is_available` already moved it from `Open` to
`HalfOpen` before the adapter was invoked. -/
theorem empty_result_state_changed_counterexample :
    ((getKlineWalk {} 300 false (fun _ => Except.ok []) false "k" ["eastmoney"]
        {} (cbUpdate initCB "eastmoney" openTrippedState)).2.2 "eastmoney").state ≠
      ((cbUpdate initCB "eastmoney" openTrippedState) "eastmoney").state := by
  have hcb0 : (cbUpdate initCB "eastmoney" openTrippedState) "eastmoney" =
      openTrippedState := by
    simp [cbUpdate]
  have hav : is_available {} openTrippedState 300 =
      (true, { state := CircuitState.halfOpen, failures := 3, last_failure_time := 0,
               half_open_calls := 0, last_error := some "timeout" }) := by
    norm_num [is_available, openTrippedState]
  rw [getKlineWalk]
  have hb : ¬ ((cb_is_available {} (cbUpdate initCB "eastmoney" openTrippedState)
      "eastmoney" 300).1 = false) := by
    simp [cb_is_available, hcb0, hav]
  rw [if_neg hb, if_neg (by decide : ¬ ("eastmoney" = "akshare" ∧ false = false))]
  simp only [List.isEmpty_nil, if_true]
  rw [getKlineWalk]
  simp only [cb_is_available, hcb0, hav, cbUpdate]
  norm_num [is_available, openTrippedState]
  decide
